import Mathlib

/-!
Shallow embedding of the game engine in `src/app.py` (a grid-based chase
game): the grid and its generation, breadth-first reachability, the player
and enemy movement rules, trap interaction and the event check.  Stateful
Python code becomes explicit state passing on a `GameState` structure;
wall-clock times (`time.time()`) become explicit `Nat` parameters; list
indexing that can raise `IndexError` becomes `Option`-returning lookups,
with `none` modelling the raised exception.  The random choices of
`generate_map` (`random.sample`, `random.shuffle`) become parameters,
with the guarantees of those library calls (distinctness, membership in
the sampled pool, fixed length) appearing as hypotheses of the theorems.
-/

set_option maxRecDepth 40000

namespace AkaOni

/-- The three cell kinds ever stored in the grid: `WALL = "🧱"`,
`FLOOR = "⬛"`, `OBSTACLE = "🌲"`.  All other glyphs of `app.py` are drawn
on a display copy only and never written into `game_map`. -/
inductive Cell where
  | wall
  | floor
  | obstacle
deriving DecidableEq, Repr

/-- A board position, the Python list `[x, y]` of two ints. -/
abbrev Pos := Int × Int

/-- The grid, `game_map`: a list of rows, indexed `game_map[y][x]`. -/
abbrev Grid := List (List Cell)

def MAP_WIDTH : Nat := 18

def MAP_HEIGHT : Nat := 14

def INITIAL_PLAYER_POS : Pos := (1, 1)

/-- `EXIT_POS = [MAP_WIDTH - 2, 1] = [16, 1]`. -/
def EXIT_POS : Pos := (16, 1)

/-- Python list indexing `l[i]`: a nonnegative index counts from the front,
a negative index at least `-len(l)` wraps once from the back, and any other
index raises `IndexError`, modelled as `none`. -/
def pyGet {α : Type} (l : List α) (i : Int) : Option α :=
  if 0 ≤ i then l[i.toNat]?
  else if 0 ≤ i + l.length then l[(i + l.length).toNat]?
  else none

/-- `game_map[y][x]`, with `none` for a raised `IndexError`. -/
def cellAt (m : Grid) (x y : Int) : Option Cell :=
  (pyGet m y).bind fun row => pyGet row x

/-- `game_map[p[1]][p[0]] = c`.  Map generation only ever writes interior
cells of the fixed-size grid, so the out-of-range case (where `List.set`
is the identity) is never reached there. -/
def setCell (m : Grid) (p : Pos) (c : Cell) : Grid :=
  match m[p.2.toNat]? with
  | some row => m.set p.2.toNat (row.set p.1.toNat c)
  | none => m

/-- Write `c` at every position of `ps` in order. -/
def placeCells (m : Grid) (ps : List Pos) (c : Cell) : Grid :=
  ps.foldl (fun g p => setCell g p c) m

/-! ### Breadth-first reachability (`is_path_possible`) -/

/-- The wall test `game_map[ny][nx] != WALL` of the BFS, as a Bool.
The BFS only evaluates it after its own bounds check, and the grids the
program runs it on are full `MAP_HEIGHT × MAP_WIDTH` grids, so the lookup
never fails there; a failed lookup is treated as a wall (the cell is not
enqueued), which is unreachable in the program. -/
def isWallAt (m : Grid) (x y : Int) : Bool :=
  match cellAt m x y with
  | some c => decide (c = Cell.wall)
  | none => true

/-- The neighbour offsets `[(0, 1), (0, -1), (1, 0), (-1, 0)]`. -/
def dirs4 : List (Int × Int) := [(0, 1), (0, -1), (1, 0), (-1, 0)]

/-- One neighbour step of the BFS loop body: bounds check against the
`MAP_WIDTH`/`MAP_HEIGHT` constants, then visited-set and wall checks; a
passing neighbour is appended to the queue and the visited list. -/
def bfsVisit (m : Grid) (x y : Int) (qv : List Pos × List Pos) (d : Int × Int) :
    List Pos × List Pos :=
  let nx := x + d.1
  let ny := y + d.2
  if 0 ≤ ny ∧ ny < (MAP_HEIGHT : Int) ∧ 0 ≤ nx ∧ nx < (MAP_WIDTH : Int) then
    if (nx, ny) ∉ qv.2 ∧ isWallAt m nx ny = false then
      (qv.1 ++ [(nx, ny)], qv.2 ++ [(nx, ny)])
    else qv
  else qv

/-- The `while queue:` loop of `is_path_possible`.  Each iteration pops one
position; every enqueued position is a fresh in-bounds member of the
visited list, so at most `MAP_WIDTH * MAP_HEIGHT` positions are ever
enqueued after the initial one and `MAP_WIDTH * MAP_HEIGHT + 1` fuel is
enough for the loop to run to its natural end. -/
def bfsAux (m : Grid) (endPos : Pos) : Nat → List Pos → List Pos → Bool
  | _, [], _ => false
  | 0, _ :: _, _ => false
  | fuel + 1, (x, y) :: rest, visited =>
    if (x, y) = endPos then true
    else
      let qv := dirs4.foldl (bfsVisit m x y) (rest, visited)
      bfsAux m endPos fuel qv.1 qv.2

def bfsFuel : Nat := MAP_WIDTH * MAP_HEIGHT + 1

/-- `is_path_possible(game_map, start_pos, end_pos)`: `False` when either
position is `None` (Python falsiness of a missing position), else BFS from
`start_pos` with the visited set initialised to the start. -/
def is_path_possible (m : Grid) (startPos endPos : Option Pos) : Bool :=
  match startPos, endPos with
  | some s, some e => bfsAux m e bfsFuel [s] [s]
  | _, _ => false

/-! ### Map generation (`generate_map`), one attempt of the retry loop,
with the random draws as parameters -/

/-- Python `range(a, b)` as a list of ints. -/
def pyRange (a b : Nat) : List Int :=
  (List.range (b - a)).map fun i : Nat => (a : Int) + (i : Int)

/-- All interior coordinates, `y` in `range(1, MAP_HEIGHT - 1)` outer and
`x` in `range(1, MAP_WIDTH - 1)` inner, as `[x, y]` pairs. -/
def interior_cells : List Pos :=
  (pyRange 1 (MAP_HEIGHT - 1)).flatMap fun y =>
    (pyRange 1 (MAP_WIDTH - 1)).map fun x => (x, y)

/-- Interior cells excluding `INITIAL_PLAYER_POS` and `EXIT_POS`: the pool
`random.sample` draws the 30 wall positions from. -/
def possible_wall_positions : List Pos :=
  interior_cells.filter fun p => decide ¬(p = INITIAL_PLAYER_POS ∨ p = EXIT_POS)

/-- The grid as first built by one attempt: `np.full(FLOOR)` followed by
the four border assignments `game_map[0, :] = game_map[-1, :] =
game_map[:, 0] = game_map[:, -1] = WALL`. -/
def baseMap : Grid :=
  (List.range MAP_HEIGHT).map fun y =>
    (List.range MAP_WIDTH).map fun x =>
      if y = 0 ∨ y = MAP_HEIGHT - 1 ∨ x = 0 ∨ x = MAP_WIDTH - 1 then Cell.wall
      else Cell.floor

/-- Interior floor cells excluding start and exit: the candidate key cells
that get shuffled. -/
def possible_key_positions (m : Grid) : List Pos :=
  interior_cells.filter fun p =>
    decide (cellAt m p.1 p.2 = some Cell.floor ∧
      ¬(p = INITIAL_PLAYER_POS ∨ p = EXIT_POS))

/-- The `for pos in possible_key_positions: ... break` search: the first
candidate (in shuffled order) reachable from the start and from which the
exit is reachable. -/
def pickKey (m : Grid) (keyOrder : List Pos) : Option Pos :=
  keyOrder.find? fun p =>
    is_path_possible m (some INITIAL_PLAYER_POS) (some p) &&
    is_path_possible m (some p) (some EXIT_POS)

/-- One iteration of the `while True:` generation loop, through key
selection: place the 30 sampled walls (the length guard is the source's
`len(possible_wall_positions) >= num_walls`), then look for a key.
`none` means this attempt failed and the source retries with fresh
randomness. -/
def gen_grid_key (wallPos keyOrder : List Pos) : Option (Grid × Pos) :=
  let m1 :=
    if 30 ≤ possible_wall_positions.length then placeCells baseMap wallPos Cell.wall
    else baseMap
  match pickKey m1 keyOrder with
  | some k => some (m1, k)
  | none => none

/-- Interior floor cells excluding start, key and exit: the pool the
obstacles are sampled from. -/
def possible_obstacle_positions (m : Grid) (key : Pos) : List Pos :=
  interior_cells.filter fun p =>
    decide (cellAt m p.1 p.2 = some Cell.floor ∧
      ¬(p = INITIAL_PLAYER_POS ∨ p = key ∨ p = EXIT_POS))

/-- The obstacle-scattering tail of `generate_map`:
`num_obstacles = min(clear_count, 40)`, placed only when positive and when
the pool is large enough. -/
def place_obstacles_stage (m : Grid) (key : Pos) (obsPos : List Pos)
    (clear_count : Nat) : Grid :=
  let num := min clear_count 40
  if 0 < num ∧ num ≤ (possible_obstacle_positions m key).length then
    placeCells m obsPos Cell.obstacle
  else m

/-- One full deterministic attempt of `generate_map`: the random draws
`wallPos` (30 sampled wall cells), `keyOrder` (the shuffled key
candidates) and `obsPos` (the sampled obstacle cells) are parameters. -/
def generate_map_det (wallPos keyOrder obsPos : List Pos) (clear_count : Nat) :
    Option (Grid × Pos) :=
  match gen_grid_key wallPos keyOrder with
  | some (m1, k) => some (place_obstacles_stage m1 k obsPos clear_count, k)
  | none => none

/-! ### The session state and the movement & rules engine -/

/-- The difficulty setting: the selectbox offers exactly
`"やさしい"` (easy), `"ふつう"` (normal), `"むずかしい"` (hard). -/
inductive Difficulty where
  | easy
  | normal
  | hard
deriving DecidableEq, Repr

/-- The mutable session fields of `st.session_state` that the engine reads
or writes.  Timestamps (`time.time()` floats) are abstracted to `Nat`
ticks, one tick = 0.1 s, so the enemy intervals 1.0/1.5/0.8 s become
10/15/8 ticks. -/
structure GameState where
  game_map : Grid
  key_pos : Option Pos
  player_pos : Pos
  oni_pos : Pos
  exit_pos : Pos
  has_key : Bool
  game_over : Bool
  win : Bool
  message : String
  clear_count : Nat
  win_counted : Bool
  turn_count : Nat
  start_time : Nat
  end_time : Option Nat
  oni_last_move_time : Nat
  player_trap_pos : Option Pos
  map_trap_pos : Option Pos
  oni_stopped_turns : Nat
  trap_count : Nat
  difficulty : Difficulty
deriving DecidableEq, Repr

/-- Python truthiness of `st.session_state.end_time` (a float or `None`):
`not end_time` is true for `None` and for `0.0`. -/
def pyFalsyTime (e : Option Nat) : Bool :=
  match e with
  | none => true
  | some t => decide (t = 0)

def msgCaught : String := "鬼に捕まってしまった...。"

def msgGotKey : String := "鍵を手に入れた！出口を探そう。"

def msgEscaped : String := "脱出に成功した！おめでとう！"

def msgLocked : String := "鍵がかかっている...。鍵を探さなければ。"

def msgBulkStop : String := "一括移動中に壁にぶつかり停止しました。"

def msgTrapSet : String := "床に罠を設置した。"

def msgOniTrapped : String := "鬼が罠にかかった！ 3ターン動けない。"

def msgOniStuck (n : Nat) : String :=
  "鬼は罠にはまっている！あと" ++ toString n ++ "ターンは動けない。"

def msgOniFree : String := "鬼が罠から抜け出した！"

/-- `check_events()`: the single ordered event check.  The only effect of
the score-submission call on the session state is the `clear_count`
increment and `win_counted` flag already written before it fires; the
external call itself mutates nothing in the session. -/
def check_events (now : Nat) (s : GameState) : GameState :=
  if s.player_pos = s.oni_pos then
    { s with game_over := true, message := msgCaught,
             end_time := if pyFalsyTime s.end_time then some now else s.end_time }
  else if s.key_pos = some s.player_pos then
    { s with has_key := true, key_pos := none, message := msgGotKey }
  else if s.player_pos = s.exit_pos then
    if s.has_key then
      let s1 :=
        if ¬s.win_counted then
          { s with win := true, message := msgEscaped,
                   clear_count := s.clear_count + 1, win_counted := true }
        else { s with win := true, message := msgEscaped }
      { s1 with end_time := if pyFalsyTime s1.end_time then some now else s1.end_time }
    else { s with message := msgLocked }
  else s

/-- `move_player(dx, dy)`.  `none` models the `IndexError` a lookup outside
the grid would raise (never reached from the game's wall-ringed states). -/
def move_player (now : Nat) (dx dy : Int) (s : GameState) : Option GameState :=
  if s.game_over || s.win then some s
  else
    match cellAt s.game_map (s.player_pos.1 + dx) (s.player_pos.2 + dy) with
    | none => none
    | some c =>
      if ¬(c = Cell.wall ∨ c = Cell.obstacle) then
        some (check_events now
          { s with player_pos := (s.player_pos.1 + dx, s.player_pos.2 + dy),
                   message := "" })
      else some s

/-- The `if command == 'l': ... elif ...` chain of `handle_bulk_move`,
on an already lowercased character; `none` is the `else: continue` case. -/
def charDir (c : Char) : Option (Int × Int) :=
  if c = 'l' then some (-1, 0)
  else if c = 'r' then some (1, 0)
  else if c = 'u' then some (0, -1)
  else if c = 'd' then some (0, 1)
  else none

/-- The `for command in commands.lower():` loop body of `handle_bulk_move`,
over the already lowercased characters.  A successful step updates the
position and runs `check_events` (without clearing the message); a blocked
step sets the stop message and breaks; a terminal state breaks first. -/
def bulkAux (now : Nat) : List Char → GameState → Option GameState
  | [], s => some s
  | c :: rest, s =>
    if s.game_over || s.win then some s
    else
      match charDir c with
      | none => bulkAux now rest s
      | some (dx, dy) =>
        match cellAt s.game_map (s.player_pos.1 + dx) (s.player_pos.2 + dy) with
        | none => none
        | some cell =>
          if ¬(cell = Cell.wall ∨ cell = Cell.obstacle) then
            bulkAux now rest (check_events now
              { s with player_pos := (s.player_pos.1 + dx, s.player_pos.2 + dy) })
          else some { s with message := msgBulkStop }

/-- `handle_bulk_move(commands)`: lowercase the whole command string, then
run the loop. -/
def handle_bulk_move (now : Nat) (commands : List Char) (s : GameState) :
    Option GameState :=
  bulkAux now (commands.map Char.toLower) s

/-- One guarded arm of the `_move_oni_one_step` elif chain: when `guard`
holds, look up the cell at `c` (`none` = `IndexError`) and move to `tgt`
if it is not a wall (`impassable = [WALL]`), otherwise fall through to the
next arm, as the failed conjunction falls through to the next `elif`. -/
def oniArm (m : Grid) (guard : Bool) (c : Pos) (tgt : Pos) (next : Option Pos) :
    Option Pos :=
  if guard then
    match cellAt m c.1 c.2 with
    | none => none
    | some k => if ¬(k = Cell.wall) then some tgt else next
  else next

/-- `_move_oni_one_step()`: greedy chase, horizontal arms first when
`abs(dist_x) > abs(dist_y)`, else vertical arms first; the enemy stays put
when no arm fires. -/
def move_oni_one_step (s : GameState) : Option GameState :=
  let px := s.player_pos.1
  let py := s.player_pos.2
  let ox := s.oni_pos.1
  let oy := s.oni_pos.2
  let dist_x := px - ox
  let dist_y := py - oy
  let newPos :=
    if |dist_x| > |dist_y| then
      oniArm s.game_map (decide (0 < dist_x)) (ox + 1, oy) (ox + 1, oy)
        (oniArm s.game_map (decide (dist_x < 0)) (ox - 1, oy) (ox - 1, oy)
          (oniArm s.game_map (decide (0 < dist_y)) (ox, oy + 1) (ox, oy + 1)
            (oniArm s.game_map (decide (dist_y < 0)) (ox, oy - 1) (ox, oy - 1)
              (some (ox, oy)))))
    else
      oniArm s.game_map (decide (0 < dist_y)) (ox, oy + 1) (ox, oy + 1)
        (oniArm s.game_map (decide (dist_y < 0)) (ox, oy - 1) (ox, oy - 1)
          (oniArm s.game_map (decide (0 < dist_x)) (ox + 1, oy) (ox + 1, oy)
            (oniArm s.game_map (decide (dist_x < 0)) (ox - 1, oy) (ox - 1, oy)
              (some (ox, oy)))))
  newPos.map fun p => { s with oni_pos := p }

/-- `check_oni_trap_interaction()`: the player trap is checked first, the
map trap only in the `elif`; a hit removes that trap and sets
`oni_stopped_turns = 3` with the trap message. -/
def check_oni_trap_interaction (s : GameState) : GameState :=
  if s.player_trap_pos = some s.oni_pos then
    { s with player_trap_pos := none, oni_stopped_turns := 3,
             message := msgOniTrapped }
  else if s.map_trap_pos = some s.oni_pos then
    { s with map_trap_pos := none, oni_stopped_turns := 3,
             message := msgOniTrapped }
  else s

/-- `move_oni()`: a stunned enemy only decrements its counter and emits a
message; otherwise the step policy runs once (easy/normal) or twice
(hard, with a capture re-check between the sub-steps that short-circuits
to `check_events`), and then the trap interaction check runs. -/
def move_oni (now : Nat) (s : GameState) : Option GameState :=
  if 0 < s.oni_stopped_turns then
    let n := s.oni_stopped_turns - 1
    some { s with oni_stopped_turns := n,
                  message := if 0 < n then msgOniStuck n else msgOniFree }
  else
    match s.difficulty with
    | Difficulty.easy | Difficulty.normal =>
      (move_oni_one_step s).map check_oni_trap_interaction
    | Difficulty.hard =>
      (move_oni_one_step s).bind fun s1 =>
        if s1.player_pos = s1.oni_pos then some (check_events now s1)
        else (move_oni_one_step s1).map check_oni_trap_interaction

/-- `automatic_oni_move()`: the real-time driver.  It is the only caller
of `move_oni` in the program and returns unchanged on a terminal state.
`now` stands for both `time.time()` reads of the tick, in 0.1 s ticks. -/
def automatic_oni_move (now : Nat) (s : GameState) : Option GameState :=
  if s.game_over || s.win then some s
  else
    let interval : Nat :=
      match s.difficulty with
      | Difficulty.easy => 15
      | Difficulty.normal => 10
      | Difficulty.hard => 8
    if interval < now - s.oni_last_move_time then
      (move_oni now s).map fun s1 =>
        { check_events now s1 with oni_last_move_time := now }
    else some s

/-- The trap-placement button handler with its `disabled` guard: the button
exists only on hard difficulty and is disabled when no placement credit
remains, a player trap is already active, or the game has ended. -/
def place_trap (s : GameState) : GameState :=
  if s.difficulty = Difficulty.hard ∧
      ¬(s.trap_count ≤ 0 ∨ s.player_trap_pos ≠ none ∨
        s.game_over = true ∨ s.win = true) then
    { s with player_trap_pos := some s.player_pos,
             trap_count := s.trap_count - 1, message := msgTrapSet }
  else s

/-! ### Small concrete scenario used by several witnesses: a 5×5 walled
room inside which the engine's moves are exercised. -/

def testMap5 : Grid :=
  [[Cell.wall, Cell.wall, Cell.wall, Cell.wall, Cell.wall],
   [Cell.wall, Cell.floor, Cell.floor, Cell.floor, Cell.wall],
   [Cell.wall, Cell.floor, Cell.floor, Cell.floor, Cell.wall],
   [Cell.wall, Cell.floor, Cell.floor, Cell.floor, Cell.wall],
   [Cell.wall, Cell.wall, Cell.wall, Cell.wall, Cell.wall]]

/-- A mid-game state on `testMap5`: player at (1,1), enemy at (3,3), key at
(3,1), exit at (3,2), a map trap at (3,2), normal difficulty. -/
def testState : GameState :=
  { game_map := testMap5, key_pos := some (3, 1), player_pos := (1, 1),
    oni_pos := (3, 3), exit_pos := (3, 2), has_key := false,
    game_over := false, win := false, message := "m0", clear_count := 0,
    win_counted := false, turn_count := 0, start_time := 5, end_time := none,
    oni_last_move_time := 0, player_trap_pos := none,
    map_trap_pos := some (3, 2), oni_stopped_turns := 0, trap_count := 0,
    difficulty := Difficulty.normal }

/-! ## C1: the ordered, mutually exclusive branches of `check_events` -/

/-- C1: every call to `check_events` fires at most one branch, in the fixed
order capture → key pickup → exit; a firing branch fully determines the
result, so the later branches' effects never happen in the same call: the
capture branch sets `game_over` and the end timestamp (once) and leaves key
and win state alone; the key branch takes the key and leaves the outcome
alone; the exit branch either wins (with the end timestamp set once) or
only sets the locked message; with no match the state is untouched. -/
theorem check_events_branches (now : Nat) (s : GameState) :
    (s.player_pos = s.oni_pos →
      check_events now s =
        { s with game_over := true, message := msgCaught,
                 end_time := if pyFalsyTime s.end_time then some now else s.end_time }) ∧
    (s.player_pos ≠ s.oni_pos → s.key_pos = some s.player_pos →
      check_events now s =
        { s with has_key := true, key_pos := none, message := msgGotKey }) ∧
    (s.player_pos ≠ s.oni_pos → s.key_pos ≠ some s.player_pos →
      s.player_pos = s.exit_pos → s.has_key = true →
      check_events now s =
        { s with win := true, message := msgEscaped,
                 clear_count := if s.win_counted then s.clear_count else s.clear_count + 1,
                 win_counted := true,
                 end_time := if pyFalsyTime s.end_time then some now else s.end_time }) ∧
    (s.player_pos ≠ s.oni_pos → s.key_pos ≠ some s.player_pos →
      s.player_pos = s.exit_pos → s.has_key = false →
      check_events now s = { s with message := msgLocked }) ∧
    (s.player_pos ≠ s.oni_pos → s.key_pos ≠ some s.player_pos →
      s.player_pos ≠ s.exit_pos → check_events now s = s) := by
  refine ⟨fun h1 => ?_, fun h1 h2 => ?_, fun h1 h2 h3 h4 => ?_,
    fun h1 h2 h3 h4 => ?_, fun h1 h2 h3 => ?_⟩
  · simp [check_events, h1]
  · simp [check_events, h1, h2]
  · unfold check_events
    rw [if_neg h1, if_neg h2, if_pos h3]
    rcases hwc : s.win_counted <;> simp [h4, hwc]
  · unfold check_events
    rw [if_neg h1, if_neg h2, if_pos h3]
    simp [h4]
  · unfold check_events
    rw [if_neg h1, if_neg h2, if_neg h3]

/-! ## C2: terminal outcomes freeze the session -/

/-- C2: in a terminal state (`game_over` or `win`), the player-move
handler, the enemy tick (`automatic_oni_move`, the program's only caller
of `move_oni`, which guards on the terminal outcome) and the trap
placement button all return the state unchanged, so positions and the
terminal outcome survive any of these calls. -/
theorem terminal_state_frozen (now : Nat) (dx dy : Int) (s : GameState)
    (h : s.game_over = true ∨ s.win = true) :
    move_player now dx dy s = some s ∧
    automatic_oni_move now s = some s ∧
    place_trap s = s := by
  have hb : (s.game_over || s.win) = true := by rcases h with h | h <;> simp [h]
  refine ⟨?_, ?_, ?_⟩
  · simp [move_player, hb]
  · simp [automatic_oni_move, hb]
  · rcases h with h | h <;> simp [place_trap, h]

/-- A concrete terminal (lost) state: `testState` with `game_over` set. -/
def testStateLost : GameState :=
  { testState with game_over := true, message := msgCaught, end_time := some 9 }

/-- Witness for C2 at a concrete lost state. -/
theorem terminal_state_frozen_witness :
    move_player 11 1 0 testStateLost = some testStateLost ∧
    automatic_oni_move 11 testStateLost = some testStateLost ∧
    place_trap testStateLost = testStateLost :=
  terminal_state_frozen 11 1 0 testStateLost (Or.inl rfl)

/-! ## C10: reflexivity of the reachability check -/

/-- The first queue entry is popped and compared with the target before any
cell of the grid is inspected. -/
theorem bfsAux_pop_eq (m : Grid) (p : Pos) (fuel : Nat) (rest visited : List Pos) :
    bfsAux m p (fuel + 1) (p :: rest) visited = true := by
  obtain ⟨x, y⟩ := p
  simp [bfsAux]

/-- C10: `is_path_possible(grid, p, p)` is `True` for every grid and every
in-bounds `p`, even when the cell at `p` is a Wall: the start is popped and
compared with the end before any cell kind is read. -/
theorem is_path_possible_refl (m : Grid) (p : Pos)
    (_hx : 0 ≤ p.1 ∧ p.1 < (MAP_WIDTH : Int))
    (_hy : 0 ≤ p.2 ∧ p.2 < (MAP_HEIGHT : Int)) :
    is_path_possible m (some p) (some p) = true := by
  have : bfsFuel = 252 + 1 := rfl
  rw [is_path_possible, this]
  exact bfsAux_pop_eq m p 252 [] [p]

/-- Witness for C10: the start corner (0,0) of `testMap5`, a Wall cell, is
"reachable" from itself. -/
theorem is_path_possible_refl_witness :
    is_path_possible testMap5 (some (0, 0)) (some (0, 0)) = true :=
  is_path_possible_refl testMap5 (0, 0) (by constructor <;> decide)
    (by constructor <;> decide)

/-! ## C7: rejected player moves (corrected) -/

/-- A non-terminal state with a stale message and a wall above the player:
used to refute the message-clearing part of the claim. -/
theorem move_player_keeps_message_on_reject :
    testState.game_over = false ∧ testState.win = false ∧
    cellAt testState.game_map (testState.player_pos.1 + 0) (testState.player_pos.2 + -1) =
      some Cell.wall ∧
    testState.message = "m0" ∧
    move_player 7 0 (-1) testState = some testState := by
  refine ⟨rfl, rfl, by decide, rfl, by decide⟩

/-- C7 as amended: in a non-terminal state, a move into a Wall or Obstacle
cell is rejected and leaves the whole state — the message included —
unchanged, while a move into any other cell updates the player position,
clears the message, and runs `check_events`. -/
theorem move_player_semantics (now : Nat) (dx dy : Int) (s : GameState) (c : Cell)
    (hover : s.game_over = false) (hwin : s.win = false)
    (hcell : cellAt s.game_map (s.player_pos.1 + dx) (s.player_pos.2 + dy) = some c) :
    (c = Cell.wall ∨ c = Cell.obstacle → move_player now dx dy s = some s) ∧
    (¬(c = Cell.wall ∨ c = Cell.obstacle) →
      move_player now dx dy s =
        some (check_events now
          { s with player_pos := (s.player_pos.1 + dx, s.player_pos.2 + dy),
                   message := "" })) := by
  constructor <;> intro h <;> simp [move_player, hover, hwin, hcell, h]

/-- Witness for C7's amended theorem: both the rejected (wall above) and
the accepted (floor to the right) case at `testState`. -/
theorem move_player_semantics_witness :
    move_player 7 0 (-1) testState = some testState ∧
    move_player 7 1 0 testState =
      some (check_events 7
        { testState with player_pos := (testState.player_pos.1 + 1, testState.player_pos.2 + 0),
                         message := "" }) := by
  constructor
  · exact (move_player_semantics 7 0 (-1) testState Cell.wall rfl rfl (by decide)).1
      (Or.inl rfl)
  · exact (move_player_semantics 7 1 0 testState Cell.floor rfl rfl (by decide)).2
      (by decide)

/-! ## C3: trap stun length (corrected: three frozen calls, not two) -/

/-- Refutes C3 as stated: on `testState` the enemy's move onto the map trap
at (3,2) removes the trap and sets the stun to 3, the next two calls leave
the enemy in place (as claimed), but the third call after the trigger
still leaves it at (3,2) — it only clears the stun — and it is the fourth
call that moves the enemy, to (2,2). -/
theorem trap_stun_third_call_counterexample :
    (move_oni 7 testState).map (fun t => (t.oni_pos, t.map_trap_pos, t.oni_stopped_turns))
      = some ((3, 2), none, 3) ∧
    ((move_oni 7 testState).bind (move_oni 8)).map (fun t => t.oni_pos) = some (3, 2) ∧
    (((move_oni 7 testState).bind (move_oni 8)).bind (move_oni 9)).map (fun t => t.oni_pos)
      = some (3, 2) ∧
    ((((move_oni 7 testState).bind (move_oni 8)).bind (move_oni 9)).bind
        (move_oni 10)).map (fun t => (t.oni_pos, t.oni_stopped_turns))
      = some ((3, 2), 0) ∧
    (((((move_oni 7 testState).bind (move_oni 8)).bind (move_oni 9)).bind
        (move_oni 10)).bind (move_oni 11)).map (fun t => t.oni_pos) = some (2, 2) := by
  refine ⟨by decide, by decide, by decide, by decide, by decide⟩

/-- C3 as amended: when the enemy lands on an active trap cell the trap is
removed and the stun counter is set to exactly 3, and the next THREE
`move_oni` calls leave the enemy (and the rest of the board) unmoved while
counting the stun down to 0, so that it is the fourth call that applies
the movement policy again (the counterexample above shows it moving). -/
theorem trap_stun_lasts_three_calls :
    (∀ s : GameState,
      (s.player_trap_pos = some s.oni_pos →
        check_oni_trap_interaction s =
          { s with player_trap_pos := none, oni_stopped_turns := 3,
                   message := msgOniTrapped }) ∧
      (s.player_trap_pos ≠ some s.oni_pos → s.map_trap_pos = some s.oni_pos →
        check_oni_trap_interaction s =
          { s with map_trap_pos := none, oni_stopped_turns := 3,
                   message := msgOniTrapped })) ∧
    (∀ (s : GameState) (n1 n2 n3 : Nat), s.oni_stopped_turns = 3 →
      ∃ t1 t2 t3 : GameState,
        move_oni n1 s = some t1 ∧ t1.oni_pos = s.oni_pos ∧
          t1.player_pos = s.player_pos ∧ t1.oni_stopped_turns = 2 ∧
        move_oni n2 t1 = some t2 ∧ t2.oni_pos = s.oni_pos ∧
          t2.player_pos = s.player_pos ∧ t2.oni_stopped_turns = 1 ∧
        move_oni n3 t2 = some t3 ∧ t3.oni_pos = s.oni_pos ∧
          t3.player_pos = s.player_pos ∧ t3.oni_stopped_turns = 0) := by
  constructor
  · intro s
    constructor
    · intro h; simp [check_oni_trap_interaction, h]
    · intro h1 h2; simp [check_oni_trap_interaction, h1, h2]
  · intro s n1 n2 n3 h
    refine ⟨{ s with oni_stopped_turns := 2, message := msgOniStuck 2 },
      { s with oni_stopped_turns := 1, message := msgOniStuck 1 },
      { s with oni_stopped_turns := 0, message := msgOniFree }, ?_⟩
    refine ⟨?_, rfl, rfl, rfl, ?_, rfl, rfl, rfl, ?_, rfl, rfl, rfl⟩ <;>
      simp [move_oni, h, msgOniStuck]

/-! ## C9: `move_oni` dispatch on difficulty when not stunned -/

/-- C9: with no stun active, `move_oni` runs the step policy once on
easy/normal and twice on hard with a capture re-check between the
sub-steps that short-circuits straight to `check_events`; on the paths
that complete their movement, the trap interaction check runs, and that
check removes a trap lying on the enemy's cell and sets the stun to 3. -/
theorem move_oni_dispatch (now : Nat) (s : GameState)
    (h : s.oni_stopped_turns = 0) :
    ((s.difficulty = Difficulty.easy ∨ s.difficulty = Difficulty.normal) →
      move_oni now s = (move_oni_one_step s).map check_oni_trap_interaction) ∧
    (s.difficulty = Difficulty.hard →
      move_oni now s = (move_oni_one_step s).bind fun s1 =>
        if s1.player_pos = s1.oni_pos then some (check_events now s1)
        else (move_oni_one_step s1).map check_oni_trap_interaction) ∧
    (∀ t : GameState,
      (t.player_trap_pos = some t.oni_pos →
        check_oni_trap_interaction t =
          { t with player_trap_pos := none, oni_stopped_turns := 3,
                   message := msgOniTrapped }) ∧
      (t.player_trap_pos ≠ some t.oni_pos → t.map_trap_pos = some t.oni_pos →
        check_oni_trap_interaction t =
          { t with map_trap_pos := none, oni_stopped_turns := 3,
                   message := msgOniTrapped }) ∧
      (t.player_trap_pos ≠ some t.oni_pos → t.map_trap_pos ≠ some t.oni_pos →
        check_oni_trap_interaction t = t)) := by
  refine ⟨fun hd => ?_, fun hd => ?_, fun t => ⟨fun h1 => ?_, fun h1 h2 => ?_,
    fun h1 h2 => ?_⟩⟩
  · rcases hd with hd | hd <;> simp [move_oni, h, hd]
  · simp [move_oni, h, hd]
  · simp [check_oni_trap_interaction, h1]
  · simp [check_oni_trap_interaction, h1, h2]
  · simp [check_oni_trap_interaction, h1, h2]

/-- Witness for C9 at `testState` (normal difficulty, no stun): the
dispatch equation evaluated concretely. -/
theorem move_oni_dispatch_witness :
    move_oni 7 testState = (move_oni_one_step testState).map check_oni_trap_interaction :=
  (move_oni_dispatch 7 testState rfl).1 (Or.inr rfl)

/-! ## C5: the enemy step policy, compared against the spec's wording -/

/-- The spec's horizontal-axis attempt: step toward the player by one cell
if the distance along this axis is nonzero and that neighbour is not Wall;
otherwise no step along this axis.  (Stated from the spec's words, for
comparison with `move_oni_one_step` from the source.) -/
def tryAxisHoriz (m : Grid) (ox oy dist_x : Int) : Option Pos :=
  if 0 < dist_x ∧ isWallAt m (ox + 1) oy = false then some (ox + 1, oy)
  else if dist_x < 0 ∧ isWallAt m (ox - 1) oy = false then some (ox - 1, oy)
  else none

/-- The spec's vertical-axis attempt. -/
def tryAxisVert (m : Grid) (ox oy dist_y : Int) : Option Pos :=
  if 0 < dist_y ∧ isWallAt m ox (oy + 1) = false then some (ox, oy + 1)
  else if dist_y < 0 ∧ isWallAt m ox (oy - 1) = false then some (ox, oy - 1)
  else none

/-- The enemy step policy as the spec words it: prefer the axis with the
larger absolute distance (vertical first on a tie), fall back to the other
axis when the preferred one yields no step, stay put when both fail. -/
def oniStepSpec (s : GameState) : Pos :=
  let ox := s.oni_pos.1
  let oy := s.oni_pos.2
  let dist_x := s.player_pos.1 - ox
  let dist_y := s.player_pos.2 - oy
  let attempt :=
    if |dist_x| > |dist_y| then
      (tryAxisHoriz s.game_map ox oy dist_x).orElse
        fun _ => tryAxisVert s.game_map ox oy dist_y
    else
      (tryAxisVert s.game_map ox oy dist_y).orElse
        fun _ => tryAxisHoriz s.game_map ox oy dist_x
  attempt.getD (ox, oy)

/-- C5: on any state whose enemy has all four orthogonal neighbour cells
inside the grid (always true in play, where the enemy sits inside the wall
ring), `_move_oni_one_step` computes exactly the spec's greedy policy:
larger-|distance| axis first, vertical on ties, Wall the only blocker,
fallback to the other axis, no move when both fail. -/
theorem oniArm_horiz_pair (m : Grid) (ox oy dx : Int) (cR cL : Cell)
    (next : Option Pos)
    (hR : cellAt m (ox + 1) oy = some cR) (hL : cellAt m (ox - 1) oy = some cL) :
    oniArm m (decide (0 < dx)) (ox + 1, oy) (ox + 1, oy)
      (oniArm m (decide (dx < 0)) (ox - 1, oy) (ox - 1, oy) next) =
    (tryAxisHoriz m ox oy dx).orElse fun _ => next := by
  unfold oniArm tryAxisHoriz isWallAt
  by_cases h1 : 0 < dx <;> by_cases h2 : dx < 0 <;>
    by_cases w1 : cR = Cell.wall <;> by_cases w2 : cL = Cell.wall <;>
    simp_all [Option.orElse] <;> (try split_ifs) <;> (try omega) <;> simp_all

theorem oniArm_vert_pair (m : Grid) (ox oy dy : Int) (cD cU : Cell)
    (next : Option Pos)
    (hD : cellAt m ox (oy + 1) = some cD) (hU : cellAt m ox (oy - 1) = some cU) :
    oniArm m (decide (0 < dy)) (ox, oy + 1) (ox, oy + 1)
      (oniArm m (decide (dy < 0)) (ox, oy - 1) (ox, oy - 1) next) =
    (tryAxisVert m ox oy dy).orElse fun _ => next := by
  unfold oniArm tryAxisVert isWallAt
  by_cases h1 : 0 < dy <;> by_cases h2 : dy < 0 <;>
    by_cases w1 : cD = Cell.wall <;> by_cases w2 : cU = Cell.wall <;>
    simp_all [Option.orElse] <;> (try split_ifs) <;> (try omega) <;> simp_all

theorem orElse_orElse_getD {α : Type} (a b : Option α) (z : α) :
    (a.orElse fun _ => b.orElse fun _ => some z) =
      some ((a.orElse fun _ => b).getD z) := by
  cases a <;> cases b <;> rfl

theorem move_oni_one_step_eq_spec (s : GameState) (cR cL cD cU : Cell)
    (hR : cellAt s.game_map (s.oni_pos.1 + 1) s.oni_pos.2 = some cR)
    (hL : cellAt s.game_map (s.oni_pos.1 - 1) s.oni_pos.2 = some cL)
    (hD : cellAt s.game_map s.oni_pos.1 (s.oni_pos.2 + 1) = some cD)
    (hU : cellAt s.game_map s.oni_pos.1 (s.oni_pos.2 - 1) = some cU) :
    move_oni_one_step s = some { s with oni_pos := oniStepSpec s } := by
  simp only [move_oni_one_step, oniStepSpec]
  by_cases hax : |s.player_pos.1 - s.oni_pos.1| > |s.player_pos.2 - s.oni_pos.2|
  · simp only [if_pos hax]
    rw [oniArm_vert_pair s.game_map s.oni_pos.1 s.oni_pos.2 _ cD cU _ hD hU,
        oniArm_horiz_pair s.game_map s.oni_pos.1 s.oni_pos.2 _ cR cL _ hR hL,
        orElse_orElse_getD]
    rfl
  · simp only [if_neg hax]
    rw [oniArm_horiz_pair s.game_map s.oni_pos.1 s.oni_pos.2 _ cR cL _ hR hL,
        oniArm_vert_pair s.game_map s.oni_pos.1 s.oni_pos.2 _ cD cU _ hD hU,
        orElse_orElse_getD]
    rfl

/-- Witness for C5 at `testState`: the enemy at (3,3) chasing the player at
(1,1) steps up to (3,2) (tied distances, vertical first). -/
theorem move_oni_one_step_eq_spec_witness :
    move_oni_one_step testState = some { testState with oni_pos := oniStepSpec testState } :=
  move_oni_one_step_eq_spec testState Cell.wall Cell.floor Cell.wall Cell.floor
    (by decide) (by decide) (by decide) (by decide)

/-! ## C8: bulk move vs. iterated `move_player` (corrected: they agree on
everything but the message field) -/

/-- The bulk move as the spec words it: re-invoke the single-step primitive
`move_player` once per valid code (case-insensitively, invalid codes
skipped), stopping the whole remaining sequence with the distinct
wall-collision message on the first rejected step and stopping without
further steps on a terminal outcome.  (Stated from the spec's words, for
comparison with `handle_bulk_move` from the source.) -/
def bulk_ref (now : Nat) : List Char → GameState → Option GameState
  | [], s => some s
  | c :: rest, s =>
    if s.game_over || s.win then some s
    else
      match charDir c.toLower with
      | none => bulk_ref now rest s
      | some (dx, dy) =>
        match cellAt s.game_map (s.player_pos.1 + dx) (s.player_pos.2 + dy) with
        | none => none
        | some cell =>
          if cell = Cell.wall ∨ cell = Cell.obstacle then
            some { s with message := msgBulkStop }
          else
            match move_player now dx dy s with
            | none => none
            | some s2 => bulk_ref now rest s2

/-- Forget the status message: the field on which the two bulk-move
semantics differ. -/
def eraseMsg (s : GameState) : GameState := { s with message := "" }

/-- Updating the message field then erasing it is just erasing it. -/
theorem eraseMsg_set_message (s : GameState) (x : String) :
    eraseMsg { s with message := x } = eraseMsg s := rfl

/-- Message-equivalent states stay message-equivalent after moving the
player to the same cell. -/
theorem eraseMsg_set_player_pos (s t : GameState) (np : Pos)
    (h : eraseMsg s = eraseMsg t) :
    eraseMsg { s with player_pos := np } = eraseMsg { t with player_pos := np } := by
  obtain ⟨m1, k1, p1, o1, e1, hk1, go1, w1, msg1, cc1, wc1, tc1, st1, et1,
    ol1, pt1, mt1, os1, tr1, d1⟩ := s
  obtain ⟨m2, k2, p2, o2, e2, hk2, go2, w2, msg2, cc2, wc2, tc2, st2, et2,
    ol2, pt2, mt2, os2, tr2, d2⟩ := t
  simp only [eraseMsg, GameState.mk.injEq] at h ⊢
  tauto

/-- `check_events` reads no message, so it maps message-equivalent states
to message-equivalent states. -/
theorem check_events_eraseMsg (now : Nat) (s t : GameState)
    (h : eraseMsg s = eraseMsg t) :
    eraseMsg (check_events now s) = eraseMsg (check_events now t) := by
  obtain ⟨m1, k1, p1, o1, e1, hk1, go1, w1, msg1, cc1, wc1, tc1, st1, et1,
    ol1, pt1, mt1, os1, tr1, d1⟩ := s
  obtain ⟨m2, k2, p2, o2, e2, hk2, go2, w2, msg2, cc2, wc2, tc2, st2, et2,
    ol2, pt2, mt2, os2, tr2, d2⟩ := t
  simp only [eraseMsg, GameState.mk.injEq] at h
  obtain ⟨h1, h2, h3, h4, h5, h6, h7, h8, -, h9, h10, h11, h12, h13, h14,
    h15, h16, h17, h18, h19⟩ := h
  subst h1 h2 h3 h4 h5 h6 h7 h8 h9 h10 h11 h12 h13 h14 h15 h16 h17 h18 h19
  unfold check_events
  split_ifs <;> simp_all [eraseMsg]

/-- Updating the player position and the message, then erasing the
message, is the same as updating the position alone then erasing. -/
theorem eraseMsg_player_msg (t : GameState) (np : Pos) (x : String) :
    eraseMsg { t with player_pos := np, message := x } =
      eraseMsg { t with player_pos := np } := rfl

/-- Lockstep simulation: the source's bulk loop on lowercased codes and the
spec's `move_player` iteration agree modulo the message field, from any
two message-equivalent start states. -/
theorem bulkAux_ref_lockstep (now : Nat) (cs : List Char) :
    ∀ s t : GameState, eraseMsg s = eraseMsg t →
      (bulkAux now (cs.map Char.toLower) s).map eraseMsg =
        (bulk_ref now cs t).map eraseMsg := by
  induction cs with
  | nil => intro s t h; simpa [bulkAux, bulk_ref] using h
  | cons c rest ih =>
    intro s t h
    have hgo : s.game_over = t.game_over := by
      have := congrArg GameState.game_over h; simpa [eraseMsg] using this
    have hw : s.win = t.win := by
      have := congrArg GameState.win h; simpa [eraseMsg] using this
    have hmap : s.game_map = t.game_map := by
      have := congrArg GameState.game_map h; simpa [eraseMsg] using this
    have hpp : s.player_pos = t.player_pos := by
      have := congrArg GameState.player_pos h; simpa [eraseMsg] using this
    simp only [List.map_cons, bulkAux, bulk_ref]
    by_cases hterm : (t.game_over || t.win) = true
    · have hterm2 : (s.game_over || s.win) = true := by rw [hgo, hw]; exact hterm
      simp [hterm, hterm2, h]
    · have hterm2 : ¬(s.game_over || s.win) = true := by rw [hgo, hw]; exact hterm
      rw [if_neg hterm, if_neg hterm2]
      cases hdir : charDir c.toLower with
      | none => simp only [hdir]; exact ih s t h
      | some d =>
        obtain ⟨dx, dy⟩ := d
        simp only [hdir]
        rw [show cellAt s.game_map (s.player_pos.1 + dx) (s.player_pos.2 + dy)
            = cellAt t.game_map (t.player_pos.1 + dx) (t.player_pos.2 + dy) by
          rw [hmap, hpp]]
        cases hcell : cellAt t.game_map (t.player_pos.1 + dx) (t.player_pos.2 + dy) with
        | none => simp only [hcell]
        | some cell =>
          simp only [hcell]
          by_cases hblock : cell = Cell.wall ∨ cell = Cell.obstacle
          · rw [if_neg (not_not_intro hblock), if_pos hblock]
            have he : eraseMsg { s with message := msgBulkStop } =
                eraseMsg { t with message := msgBulkStop } := by
              rw [eraseMsg_set_message, eraseMsg_set_message]; exact h
            simp [he]
          · rw [if_pos hblock, if_neg hblock]
            have hmp : move_player now dx dy t =
                some (check_events now
                  { t with player_pos := (t.player_pos.1 + dx, t.player_pos.2 + dy),
                           message := "" }) := by
              simp [move_player, hterm, hcell, hblock]
            rw [hmp]
            refine ih _ _ (check_events_eraseMsg now _ _ ?_)
            rw [eraseMsg_player_msg, hpp]
            exact eraseMsg_set_player_pos s t _ h

/-- Refutes C8 as stated: one successful bulk step onto a plain floor cell
keeps the stale message "m0", while the same step through `move_player`
clears it, so the two final states differ (and only in the message). -/
theorem bulk_move_message_counterexample :
    (handle_bulk_move 7 ['r'] testState).map (fun u => u.message) = some "m0" ∧
    (bulk_ref 7 ['r'] testState).map (fun u => u.message) = some "" ∧
    handle_bulk_move 7 ['r'] testState ≠ bulk_ref 7 ['r'] testState := by
  refine ⟨by decide, by decide, by decide⟩

/-- C8 as amended: for every sequence of direction codes, the bulk move
produces the same state as re-invoking `move_player` once per valid code
in order (case-insensitively, skipping invalid codes, stopping the
remaining sequence with the distinct wall-collision message on the first
rejected step, and stopping on a terminal outcome) — up to the status
message field, which the bulk loop does not clear on successful steps the
way `move_player` does. -/
theorem handle_bulk_move_eq_ref_mod_message (now : Nat) (cs : List Char)
    (s : GameState) :
    (handle_bulk_move now cs s).map eraseMsg = (bulk_ref now cs s).map eraseMsg :=
  bulkAux_ref_lockstep now cs s s rfl

/-! ## Infrastructure for the map-generation claims (C4, C6) -/

/-- Grid lookup at already-resolved nonnegative indices. -/
def cellN (m : Grid) (i j : Nat) : Option Cell :=
  m[j]?.bind fun row => row[i]?

theorem cellAt_nonneg (m : Grid) (x y : Int) (hx : 0 ≤ x) (hy : 0 ≤ y) :
    cellAt m x y = cellN m x.toNat y.toNat := by
  unfold cellAt cellN pyGet
  rw [if_pos hy]
  rcases h : m[y.toNat]? with _ | row
  · rfl
  · simp [if_pos hx]

/-- The shape every grid of the program has: `MAP_HEIGHT` rows of
`MAP_WIDTH` cells. -/
def gridWF (m : Grid) : Prop :=
  m.length = MAP_HEIGHT ∧ ∀ row ∈ m, row.length = MAP_WIDTH

theorem gridWF_baseMap : gridWF baseMap := by
  constructor
  · simp [baseMap]
  · intro row hrow
    simp only [baseMap, List.mem_map] at hrow
    obtain ⟨y, -, rfl⟩ := hrow
    simp

theorem gridWF_setCell (m : Grid) (p : Pos) (c : Cell) (h : gridWF m) :
    gridWF (setCell m p c) := by
  unfold setCell
  rcases hrow : m[p.2.toNat]? with _ | row
  · exact h
  · refine ⟨by simpa using h.1, ?_⟩
    intro r hr
    rcases List.mem_or_eq_of_mem_set hr with hr' | rfl
    · exact h.2 r hr'
    · simpa using h.2 row (List.getElem?_mem hrow)

theorem gridWF_placeCells (c : Cell) :
    ∀ (ps : List Pos) (m : Grid), gridWF m → gridWF (placeCells m ps c) := by
  intro ps
  induction ps with
  | nil => intro m h; exact h
  | cons p ps ih => intro m h; exact ih (setCell m p c) (gridWF_setCell m p c h)

theorem cellN_setCell_ne (m : Grid) (p : Pos) (c : Cell) (i j : Nat)
    (hne : ¬(p.1.toNat = i ∧ p.2.toNat = j)) :
    cellN (setCell m p c) i j = cellN m i j := by
  unfold setCell cellN
  rcases hrow : m[p.2.toNat]? with _ | row
  · rfl
  · by_cases hj : p.2.toNat = j
    · subst hj
      rw [List.getElem?_set_self (List.getElem?_eq_some.1 hrow).1, hrow]
      have hi : p.1.toNat ≠ i := fun hi => hne ⟨hi, rfl⟩
      simp [List.getElem?_set_ne hi]
    · rw [List.getElem?_set_ne hj]

theorem cellN_setCell_self (m : Grid) (p : Pos) (c : Cell) (row : List Cell)
    (hrow : m[p.2.toNat]? = some row) (hi : p.1.toNat < row.length) :
    cellN (setCell m p c) p.1.toNat p.2.toNat = some c := by
  unfold setCell cellN
  rw [hrow]
  rw [List.getElem?_set_self (List.getElem?_eq_some.1 hrow).1]
  simp [List.getElem?_set_self hi]

theorem mem_pyRange (a b : Nat) (x : Int) :
    x ∈ pyRange a b ↔ (a : Int) ≤ x ∧ x < (b : Int) := by
  simp only [pyRange, List.mem_map, List.mem_range]
  constructor
  · rintro ⟨k, hk, rfl⟩; omega
  · intro ⟨h1, h2⟩; exact ⟨(x - a).toNat, by omega, by omega⟩

theorem mem_interior_cells (p : Pos) :
    p ∈ interior_cells ↔ 1 ≤ p.1 ∧ p.1 ≤ 16 ∧ 1 ≤ p.2 ∧ p.2 ≤ 12 := by
  obtain ⟨x, y⟩ := p
  simp only [interior_cells, List.mem_flatMap, List.mem_map, Prod.mk.injEq]
  constructor
  · rintro ⟨y', hy', x', hx', rfl, rfl⟩
    rw [mem_pyRange] at hy' hx'
    simp only [MAP_HEIGHT, MAP_WIDTH] at hy' hx'
    omega
  · intro h
    refine ⟨y, ?_, x, ?_, rfl, rfl⟩ <;> rw [mem_pyRange] <;>
      simp only [MAP_HEIGHT, MAP_WIDTH] <;> omega

/-- All coordinates of the fixed-size grid. -/
def all_coords : List Pos :=
  (pyRange 0 MAP_HEIGHT).flatMap fun y =>
    (pyRange 0 MAP_WIDTH).map fun x => (x, y)

theorem mem_all_coords (p : Pos) :
    p ∈ all_coords ↔ 0 ≤ p.1 ∧ p.1 ≤ 17 ∧ 0 ≤ p.2 ∧ p.2 ≤ 13 := by
  obtain ⟨x, y⟩ := p
  simp only [all_coords, List.mem_flatMap, List.mem_map, Prod.mk.injEq]
  constructor
  · rintro ⟨y', hy', x', hx', rfl, rfl⟩
    rw [mem_pyRange] at hy' hx'
    simp only [MAP_HEIGHT, MAP_WIDTH] at hy' hx'
    omega
  · intro h
    refine ⟨y, ?_, x, ?_, rfl, rfl⟩ <;> rw [mem_pyRange] <;>
      simp only [MAP_HEIGHT, MAP_WIDTH] <;> omega

theorem cellN_baseMap (i j : Nat) (hi : i < MAP_WIDTH) (hj : j < MAP_HEIGHT) :
    cellN baseMap i j =
      some (if j = 0 ∨ j = MAP_HEIGHT - 1 ∨ i = 0 ∨ i = MAP_WIDTH - 1 then Cell.wall
            else Cell.floor) := by
  unfold cellN baseMap
  simp [List.getElem?_range hj, List.getElem?_range hi]

theorem cellN_placeCells (c : Cell) :
    ∀ (ps : List Pos) (m : Grid), gridWF m →
      (∀ p ∈ ps, p ∈ interior_cells) → ∀ i j : Nat, i < MAP_WIDTH → j < MAP_HEIGHT →
      cellN (placeCells m ps c) i j =
        if ∃ p ∈ ps, p.1.toNat = i ∧ p.2.toNat = j then some c else cellN m i j := by
  intro ps
  induction ps with
  | nil => intro m hm hps i j hi hj; simp [placeCells]
  | cons p ps ih =>
    intro m hm hps i j hi hj
    have hstep : placeCells m (p :: ps) c = placeCells (setCell m p c) ps c := rfl
    rw [hstep, ih (setCell m p c) (gridWF_setCell m p c hm)
      (fun q hq => hps q (List.mem_cons_of_mem p hq)) i j hi hj]
    by_cases hin : ∃ q ∈ ps, q.1.toNat = i ∧ q.2.toNat = j
    · rw [if_pos hin,
        if_pos (by obtain ⟨q, hq, hq2⟩ := hin; exact ⟨q, List.mem_cons_of_mem p hq, hq2⟩)]
    · rw [if_neg hin]
      by_cases hp : p.1.toNat = i ∧ p.2.toNat = j
      · rw [if_pos ⟨p, List.mem_cons_self p ps, hp⟩]
        obtain ⟨hp1, hp2⟩ := hp
        subst hp1; subst hp2
        have hpmem := hps p (List.mem_cons_self p ps)
        rw [mem_interior_cells] at hpmem
        have hjlen : p.2.toNat < m.length := by
          rw [hm.1]; simp only [MAP_HEIGHT]; omega
        obtain ⟨row, hrow⟩ : ∃ row, m[p.2.toNat]? = some row :=
          ⟨_, List.getElem?_eq_getElem hjlen⟩
        have hrl : row.length = MAP_WIDTH := hm.2 row (List.getElem?_mem hrow)
        exact cellN_setCell_self m p c row hrow
          (by rw [hrl]; simp only [MAP_WIDTH]; omega)
      · rw [if_neg (by
          rintro ⟨q, hq, hq2⟩
          rcases List.mem_cons.1 hq with rfl | hq'
          · exact hp hq2
          · exact hin ⟨q, hq', hq2⟩)]
        exact cellN_setCell_ne m p c i j hp

/-- The all-walls check of the outer ring, over the concrete coordinate
list of the fixed-size grid. -/
def ring_all_wall (g : Grid) : Bool :=
  (all_coords.filter fun p =>
    decide (p.1 = 0 ∨ p.1 = (MAP_WIDTH : Int) - 1 ∨
      p.2 = 0 ∨ p.2 = (MAP_HEIGHT : Int) - 1)).all
    fun p => decide (cellAt g p.1 p.2 = some Cell.wall)

/-- Interior writes (walls then obstacles) never touch the border, which
the base grid sets to Wall. -/
theorem ring_all_wall_placed (wallPos obsPos : List Pos)
    (hw : ∀ p ∈ wallPos, p ∈ interior_cells)
    (ho : ∀ p ∈ obsPos, p ∈ interior_cells) :
    ring_all_wall
      (placeCells (placeCells baseMap wallPos Cell.wall) obsPos Cell.obstacle) = true := by
  rw [ring_all_wall, List.all_eq_true]
  intro p hp
  obtain ⟨hpmem, hpborder⟩ := List.mem_filter.1 hp
  rw [mem_all_coords] at hpmem
  rw [decide_eq_true_eq] at hpborder
  rw [decide_eq_true_eq]
  have hi : p.1.toNat < MAP_WIDTH := by simp only [MAP_WIDTH] at *; omega
  have hj : p.2.toNat < MAP_HEIGHT := by simp only [MAP_HEIGHT] at *; omega
  have hborderN : p.2.toNat = 0 ∨ p.2.toNat = MAP_HEIGHT - 1 ∨
      p.1.toNat = 0 ∨ p.1.toNat = MAP_WIDTH - 1 := by
    simp only [MAP_WIDTH, MAP_HEIGHT] at *; omega
  have hnohit : ∀ (ps : List Pos), (∀ q ∈ ps, q ∈ interior_cells) →
      ¬∃ q ∈ ps, q.1.toNat = p.1.toNat ∧ q.2.toNat = p.2.toNat := by
    rintro ps hps ⟨q, hq, hq1, hq2⟩
    have := hps q hq
    rw [mem_interior_cells] at this
    simp only [MAP_WIDTH, MAP_HEIGHT] at hborderN
    omega
  rw [cellAt_nonneg _ p.1 p.2 (by omega) (by omega),
    cellN_placeCells Cell.obstacle obsPos _
      (gridWF_placeCells Cell.wall wallPos baseMap gridWF_baseMap) ho
      p.1.toNat p.2.toNat hi hj,
    if_neg (hnohit obsPos ho),
    cellN_placeCells Cell.wall wallPos baseMap gridWF_baseMap hw
      p.1.toNat p.2.toNat hi hj,
    if_neg (hnohit wallPos hw),
    cellN_baseMap p.1.toNat p.2.toNat hi hj, if_pos hborderN]

theorem foldl_eq_of_fn_eq {α β : Type} (f g : α → β → α) (l : List β)
    (h : ∀ a b, f a b = g a b) : ∀ init, l.foldl f init = l.foldl g init := by
  induction l with
  | nil => intro init; rfl
  | cons b l ih => intro init; rw [List.foldl_cons, List.foldl_cons, h]; exact ih _

theorem bfsVisit_congr (g1 g2 : Grid)
    (h : ∀ x y : Int, 0 ≤ x → x < (MAP_WIDTH : Int) → 0 ≤ y → y < (MAP_HEIGHT : Int) →
      isWallAt g1 x y = isWallAt g2 x y)
    (x y : Int) (qv : List Pos × List Pos) (d : Int × Int) :
    bfsVisit g1 x y qv d = bfsVisit g2 x y qv d := by
  simp only [bfsVisit]
  by_cases hb : 0 ≤ y + d.2 ∧ y + d.2 < (MAP_HEIGHT : Int) ∧
      0 ≤ x + d.1 ∧ x + d.1 < (MAP_WIDTH : Int)
  · rw [if_pos hb, if_pos hb,
      h (x + d.1) (y + d.2) hb.2.2.1 hb.2.2.2 hb.1 hb.2.1]
  · rw [if_neg hb, if_neg hb]

theorem bfsAux_congr (g1 g2 : Grid)
    (h : ∀ x y : Int, 0 ≤ x → x < (MAP_WIDTH : Int) → 0 ≤ y → y < (MAP_HEIGHT : Int) →
      isWallAt g1 x y = isWallAt g2 x y) :
    ∀ (fuel : Nat) (q v : List Pos) (e : Pos),
      bfsAux g1 e fuel q v = bfsAux g2 e fuel q v := by
  intro fuel
  induction fuel with
  | zero => intro q v e; cases q with | nil => rfl | cons a q => rfl
  | succ n ih =>
    intro q v e
    cases q with
    | nil => rfl
    | cons a q =>
      obtain ⟨x, y⟩ := a
      simp only [bfsAux]
      by_cases he : (x, y) = e
      · rw [if_pos he, if_pos he]
      · rw [if_neg he, if_neg he,
          foldl_eq_of_fn_eq (bfsVisit g1 x y) (bfsVisit g2 x y) dirs4
            (fun a b => bfsVisit_congr g1 g2 h x y a b) (q, v)]
        exact ih _ _ _

theorem is_path_possible_congr (g1 g2 : Grid)
    (h : ∀ x y : Int, 0 ≤ x → x < (MAP_WIDTH : Int) → 0 ≤ y → y < (MAP_HEIGHT : Int) →
      isWallAt g1 x y = isWallAt g2 x y)
    (a b : Option Pos) :
    is_path_possible g1 a b = is_path_possible g2 a b := by
  cases a with
  | none => cases b <;> rfl
  | some s =>
    cases b with
    | none => rfl
    | some e => exact bfsAux_congr g1 g2 h bfsFuel [s] [s] e

/-- Scattering obstacles over floor cells changes no wall, so the BFS wall
test is untouched. -/
theorem isWallAt_obstacles (m1 : Grid) (key : Pos) (obsPos : List Pos)
    (hWF : gridWF m1)
    (hobs : ∀ p ∈ obsPos, p ∈ possible_obstacle_positions m1 key) :
    ∀ x y : Int, 0 ≤ x → x < (MAP_WIDTH : Int) → 0 ≤ y → y < (MAP_HEIGHT : Int) →
      isWallAt (placeCells m1 obsPos Cell.obstacle) x y = isWallAt m1 x y := by
  intro x y hx hxu hy hyu
  have hi : x.toNat < MAP_WIDTH := by simp only [MAP_WIDTH] at *; omega
  have hj : y.toNat < MAP_HEIGHT := by simp only [MAP_HEIGHT] at *; omega
  unfold isWallAt
  rw [cellAt_nonneg _ x y hx hy, cellAt_nonneg _ x y hx hy,
    cellN_placeCells Cell.obstacle obsPos m1 hWF
      (fun p hp => (List.mem_filter.1 (hobs p hp)).1) x.toNat y.toNat hi hj]
  by_cases hhit : ∃ p ∈ obsPos, p.1.toNat = x.toNat ∧ p.2.toNat = y.toNat
  · rw [if_pos hhit]
    obtain ⟨p, hp, hp1, hp2⟩ := hhit
    have hmem := hobs p hp
    have hfloor : cellAt m1 p.1 p.2 = some Cell.floor := by
      have h2 := (List.mem_filter.1 hmem).2
      rw [decide_eq_true_eq] at h2
      exact h2.1
    have hint := (List.mem_filter.1 hmem).1
    rw [mem_interior_cells] at hint
    have hfl : cellN m1 x.toNat y.toNat = some Cell.floor := by
      rw [← hp1, ← hp2, ← cellAt_nonneg m1 p.1 p.2 (by omega) (by omega)]
      exact hfloor
    rw [hfl]
    rfl
  · rw [if_neg hhit]

theorem gen_grid_key_inv (wallPos keyOrder : List Pos) (m1 : Grid) (k : Pos)
    (h : gen_grid_key wallPos keyOrder = some (m1, k)) :
    m1 = placeCells baseMap wallPos Cell.wall ∧ pickKey m1 keyOrder = some k := by
  have hlen : 30 ≤ possible_wall_positions.length := by decide
  simp only [gen_grid_key, hlen, if_true] at h
  rcases hpk : pickKey (placeCells baseMap wallPos Cell.wall) keyOrder with _ | k'
  · rw [hpk] at h; exact absurd h (by simp)
  · rw [hpk] at h
    simp only [Option.some.injEq, Prod.mk.injEq] at h
    obtain ⟨h1, h2⟩ := h
    subst h1; subst h2
    exact ⟨rfl, hpk⟩

theorem pickKey_some (m : Grid) (keyOrder : List Pos) (k : Pos)
    (h : pickKey m keyOrder = some k) :
    is_path_possible m (some INITIAL_PLAYER_POS) (some k) = true ∧
    is_path_possible m (some k) (some EXIT_POS) = true := by
  have h2 := List.find?_some h
  simpa [Bool.and_eq_true] using h2

/-- C4: every successful `generate_map` attempt (any wall sample from the
wall pool, any key-candidate order, any obstacle sample from the obstacle
pool) yields a grid whose whole outer ring is Wall and whose key is
reachable from the player start and reaches the exit, under the program's
own BFS check (walls the only blockers) run on the final grid. -/
theorem generate_map_ring_and_reachable
    (wallPos keyOrder obsPos : List Pos) (clear_count : Nat) (m1 g : Grid) (k : Pos)
    (hw : ∀ p ∈ wallPos, p ∈ possible_wall_positions)
    (hgen : gen_grid_key wallPos keyOrder = some (m1, k))
    (hobs : ∀ p ∈ obsPos, p ∈ possible_obstacle_positions m1 k)
    (hg : generate_map_det wallPos keyOrder obsPos clear_count = some (g, k)) :
    ring_all_wall g = true ∧
    is_path_possible g (some INITIAL_PLAYER_POS) (some k) = true ∧
    is_path_possible g (some k) (some EXIT_POS) = true := by
  obtain ⟨hm1, hpk⟩ := gen_grid_key_inv wallPos keyOrder m1 k hgen
  have hgdef : place_obstacles_stage m1 k obsPos clear_count = g := by
    unfold generate_map_det at hg
    rw [hgen] at hg
    simp only [Option.some.injEq, Prod.mk.injEq] at hg
    exact hg.1
  obtain ⟨hp1, hp2⟩ := pickKey_some m1 keyOrder k hpk
  have hwi : ∀ p ∈ wallPos, p ∈ interior_cells :=
    fun p hp => (List.mem_filter.1 (hw p hp)).1
  have hoi : ∀ p ∈ obsPos, p ∈ interior_cells :=
    fun p hp => (List.mem_filter.1 (hobs p hp)).1
  have hWF1 : gridWF m1 := by
    rw [hm1]; exact gridWF_placeCells Cell.wall wallPos baseMap gridWF_baseMap
  rw [← hgdef]
  unfold place_obstacles_stage
  by_cases hcond : 0 < min clear_count 40 ∧
      min clear_count 40 ≤ (possible_obstacle_positions m1 k).length
  · rw [if_pos hcond]
    refine ⟨?_, ?_, ?_⟩
    · rw [hm1]
      exact ring_all_wall_placed wallPos obsPos hwi hoi
    · rw [is_path_possible_congr _ m1 (isWallAt_obstacles m1 k obsPos hWF1 hobs)]
      exact hp1
    · rw [is_path_possible_congr _ m1 (isWallAt_obstacles m1 k obsPos hWF1 hobs)]
      exact hp2
  · rw [if_neg hcond]
    refine ⟨?_, hp1, hp2⟩
    rw [hm1]
    exact ring_all_wall_placed wallPos [] hwi (by simp)

/-- A concrete wall sample: the full row y = 2 of interior cells. -/
def fenceWalls : List Pos := (pyRange 1 17).map fun x => (x, 2)

/-- Witness for C4: a concrete generation attempt with the fence sample,
key candidate (2,1) and no obstacles (clear count 0), evaluated. -/
theorem generate_map_ring_and_reachable_witness :
    ring_all_wall (placeCells baseMap fenceWalls Cell.wall) = true ∧
    is_path_possible (placeCells baseMap fenceWalls Cell.wall)
      (some INITIAL_PLAYER_POS) (some (2, 1)) = true ∧
    is_path_possible (placeCells baseMap fenceWalls Cell.wall)
      (some (2, 1)) (some EXIT_POS) = true :=
  generate_map_ring_and_reachable fenceWalls [(2, 1)] [] 0
    (placeCells baseMap fenceWalls Cell.wall)
    (placeCells baseMap fenceWalls Cell.wall) (2, 1)
    (by decide) (by decide) (by simp) (by decide)

/-! ## C6: the obstacle count -/

theorem pyRange_nodup (a b : Nat) : (pyRange a b).Nodup := by
  unfold pyRange
  exact List.Nodup.map (fun x y h => by omega) (List.nodup_range _)

theorem coords_nodup (ys xs : List Int) (hys : ys.Nodup) (hxs : xs.Nodup) :
    (ys.flatMap fun y => xs.map fun x => ((x, y) : Pos)).Nodup := by
  induction ys with
  | nil => simp
  | cons y ys ih =>
    rw [List.flatMap_cons, List.nodup_append]
    refine ⟨List.Nodup.map (fun a b h => by simpa using congrArg Prod.fst h) hxs,
      ih (List.nodup_cons.1 hys).2, ?_⟩
    intro p hp hp'
    simp only [List.mem_map] at hp
    obtain ⟨x, -, rfl⟩ := hp
    simp only [List.mem_flatMap, List.mem_map] at hp'
    obtain ⟨y', hy', x', -, hxy⟩ := hp'
    have : y' = y := by simpa using (congrArg Prod.snd hxy)
    exact (List.nodup_cons.1 hys).1 (this ▸ hy')

theorem interior_cells_nodup : interior_cells.Nodup :=
  coords_nodup _ _ (pyRange_nodup _ _) (pyRange_nodup _ _)

theorem all_coords_nodup : all_coords.Nodup :=
  coords_nodup _ _ (pyRange_nodup _ _) (pyRange_nodup _ _)

theorem interior_subset_all_coords : ∀ p ∈ interior_cells, p ∈ all_coords := by
  intro p hp
  rw [mem_interior_cells] at hp
  rw [mem_all_coords]
  omega

theorem nodup_subset_length {α : Type} [DecidableEq α] (l1 l2 : List α)
    (h1 : l1.Nodup) (hsub : ∀ x ∈ l1, x ∈ l2) : l1.length ≤ l2.length := by
  calc l1.length = l1.toFinset.card := (List.toFinset_card_of_nodup h1).symm
    _ ≤ l2.toFinset.card := Finset.card_le_card
        (fun x hx => List.mem_toFinset.2 (hsub x (List.mem_toFinset.1 hx)))
    _ ≤ l2.length := List.toFinset_card_le l2

/-- What membership in the obstacle pool means. -/
theorem mem_possible_obstacle_positions (m : Grid) (key : Pos) (p : Pos) :
    p ∈ possible_obstacle_positions m key ↔
      p ∈ interior_cells ∧ cellAt m p.1 p.2 = some Cell.floor ∧
        ¬(p = INITIAL_PLAYER_POS ∨ p = key ∨ p = EXIT_POS) := by
  simp [possible_obstacle_positions, List.mem_filter, and_assoc]

/-- Any interior cell of the walls-placed grid that is not Floor carries
one of the sampled wall positions. -/
theorem interior_nonfloor_is_wallPos (wallPos : List Pos)
    (hw : ∀ p ∈ wallPos, p ∈ possible_wall_positions) (p : Pos)
    (hp : p ∈ interior_cells)
    (hnf : cellAt (placeCells baseMap wallPos Cell.wall) p.1 p.2 ≠ some Cell.floor) :
    p ∈ wallPos := by
  have hwi : ∀ q ∈ wallPos, q ∈ interior_cells :=
    fun q hq => (List.mem_filter.1 (hw q hq)).1
  have hpb := (mem_interior_cells p).1 hp
  have hi : p.1.toNat < MAP_WIDTH := by simp only [MAP_WIDTH]; omega
  have hj : p.2.toNat < MAP_HEIGHT := by simp only [MAP_HEIGHT]; omega
  rw [cellAt_nonneg _ p.1 p.2 (by omega) (by omega),
    cellN_placeCells Cell.wall wallPos baseMap gridWF_baseMap hwi
      p.1.toNat p.2.toNat hi hj] at hnf
  by_cases hhit : ∃ q ∈ wallPos, q.1.toNat = p.1.toNat ∧ q.2.toNat = p.2.toNat
  · obtain ⟨q, hq, hq1, hq2⟩ := hhit
    have hqb := (mem_interior_cells q).1 (hwi q hq)
    have : q = p := by
      obtain ⟨qx, qy⟩ := q; obtain ⟨px, py⟩ := p
      simp only [Prod.mk.injEq]
      simp only at hq1 hq2 hqb hpb
      omega
    exact this ▸ hq
  · exfalso
    rw [if_neg hhit, cellN_baseMap p.1.toNat p.2.toNat hi hj] at hnf
    apply hnf
    rw [if_neg (by simp only [MAP_WIDTH, MAP_HEIGHT]; omega)]

/-- The obstacle pool keeps at least 192 − 30 − 3 of the 192 interior
cells, so the `len(...) >= num_obstacles` guard always holds. -/
theorem obstacle_pool_large (wallPos : List Pos) (k : Pos)
    (hw : ∀ p ∈ wallPos, p ∈ possible_wall_positions)
    (hwl : wallPos.length = 30) :
    40 ≤ (possible_obstacle_positions (placeCells baseMap wallPos Cell.wall) k).length := by
  set m1 := placeCells baseMap wallPos Cell.wall with hm1
  set f : Pos → Bool := fun p =>
    decide (cellAt m1 p.1 p.2 = some Cell.floor ∧
      ¬(p = INITIAL_PLAYER_POS ∨ p = k ∨ p = EXIT_POS)) with hf
  have hsplit := List.length_eq_length_filter_add (l := interior_cells) f
  have hbad : (interior_cells.filter fun p => !(f p)).length ≤ 33 := by
    have hsub : ∀ p ∈ (interior_cells.filter fun p => !(f p)),
        p ∈ wallPos ++ [INITIAL_PLAYER_POS, k, EXIT_POS] := by
      intro p hp
      obtain ⟨hpmem, hpred⟩ := List.mem_filter.1 hp
      rw [Bool.not_eq_eq_eq_not, Bool.not_true, hf, decide_eq_false_iff_not] at hpred
      rw [List.mem_append]
      by_cases hres : p = INITIAL_PLAYER_POS ∨ p = k ∨ p = EXIT_POS
      · right; simpa using hres
      · left
        refine interior_nonfloor_is_wallPos wallPos hw p hpmem fun hfl => ?_
        exact hpred ⟨hfl, hres⟩
    calc (interior_cells.filter fun p => !(f p)).length
        ≤ (wallPos ++ [INITIAL_PLAYER_POS, k, EXIT_POS]).length :=
          nodup_subset_length _ _ (List.Nodup.filter _ interior_cells_nodup) hsub
      _ = 33 := by simp [hwl]
  have hlen : interior_cells.length = 192 := by decide
  have : (possible_obstacle_positions m1 k).length =
      (interior_cells.filter f).length := by
    rw [possible_obstacle_positions, hf]
  omega

/-- Count of Obstacle cells over the whole grid. -/
def count_obstacles (g : Grid) : Nat :=
  (all_coords.filter fun p => decide (cellAt g p.1 p.2 = some Cell.obstacle)).length

/-- The walls-placed grid holds no Obstacle cell at all. -/
theorem m1_no_obstacle (wallPos : List Pos)
    (hw : ∀ p ∈ wallPos, p ∈ possible_wall_positions) (p : Pos)
    (hp : p ∈ all_coords) :
    cellAt (placeCells baseMap wallPos Cell.wall) p.1 p.2 ≠ some Cell.obstacle := by
  have hwi : ∀ q ∈ wallPos, q ∈ interior_cells :=
    fun q hq => (List.mem_filter.1 (hw q hq)).1
  have hpb := (mem_all_coords p).1 hp
  have hi : p.1.toNat < MAP_WIDTH := by simp only [MAP_WIDTH]; omega
  have hj : p.2.toNat < MAP_HEIGHT := by simp only [MAP_HEIGHT]; omega
  rw [cellAt_nonneg _ p.1 p.2 (by omega) (by omega),
    cellN_placeCells Cell.wall wallPos baseMap gridWF_baseMap hwi
      p.1.toNat p.2.toNat hi hj]
  by_cases hhit : ∃ q ∈ wallPos, q.1.toNat = p.1.toNat ∧ q.2.toNat = p.2.toNat
  · rw [if_pos hhit]; simp
  · rw [if_neg hhit, cellN_baseMap p.1.toNat p.2.toNat hi hj]
    split_ifs <;> simp

/-- An in-bounds cell of the final grid is Obstacle exactly when its
position was sampled. -/
theorem obstacle_iff_sampled (wallPos obsPos : List Pos) (k : Pos)
    (hw : ∀ p ∈ wallPos, p ∈ possible_wall_positions)
    (hobs : ∀ p ∈ obsPos,
      p ∈ possible_obstacle_positions (placeCells baseMap wallPos Cell.wall) k)
    (p : Pos) (hp : p ∈ all_coords) :
    cellAt (placeCells (placeCells baseMap wallPos Cell.wall) obsPos Cell.obstacle)
        p.1 p.2 = some Cell.obstacle ↔ p ∈ obsPos := by
  have hoi : ∀ q ∈ obsPos, q ∈ interior_cells :=
    fun q hq => (List.mem_filter.1 (hobs q hq)).1
  have hpb := (mem_all_coords p).1 hp
  have hi : p.1.toNat < MAP_WIDTH := by simp only [MAP_WIDTH]; omega
  have hj : p.2.toNat < MAP_HEIGHT := by simp only [MAP_HEIGHT]; omega
  rw [cellAt_nonneg _ p.1 p.2 (by omega) (by omega),
    cellN_placeCells Cell.obstacle obsPos _
      (gridWF_placeCells Cell.wall wallPos baseMap gridWF_baseMap) hoi
      p.1.toNat p.2.toNat hi hj]
  constructor
  · intro hcell
    by_cases hhit : ∃ q ∈ obsPos, q.1.toNat = p.1.toNat ∧ q.2.toNat = p.2.toNat
    · obtain ⟨q, hq, hq1, hq2⟩ := hhit
      have hqb := (mem_interior_cells q).1 (hoi q hq)
      have : q = p := by
        obtain ⟨qx, qy⟩ := q; obtain ⟨px, py⟩ := p
        simp only [Prod.mk.injEq]
        simp only at hq1 hq2 hqb hpb
        omega
      exact this ▸ hq
    · exfalso
      rw [if_neg hhit, ← cellAt_nonneg _ p.1 p.2 (by omega) (by omega)] at hcell
      exact m1_no_obstacle wallPos hw p hp hcell
  · intro hmem
    rw [if_pos ⟨p, hmem, rfl, rfl⟩]

/-- C6: every successful `generate_map` attempt marks exactly
`min(clearCount, 40)` cells as Obstacle — the pool is always large enough
for the sample — and the sampled cells all lie on Floor cells of the
walls-placed grid, away from the player start, the key and the exit. -/
theorem generate_map_obstacle_count
    (wallPos keyOrder obsPos : List Pos) (clear_count : Nat) (m1 g : Grid) (k : Pos)
    (hw : ∀ p ∈ wallPos, p ∈ possible_wall_positions)
    (hwl : wallPos.length = 30)
    (hgen : gen_grid_key wallPos keyOrder = some (m1, k))
    (hobs : ∀ p ∈ obsPos, p ∈ possible_obstacle_positions m1 k)
    (hobsn : obsPos.Nodup)
    (hobsl : obsPos.length = min clear_count 40)
    (hg : generate_map_det wallPos keyOrder obsPos clear_count = some (g, k)) :
    count_obstacles g = min clear_count 40 ∧
    (∀ p ∈ obsPos, cellAt m1 p.1 p.2 = some Cell.floor ∧
      p ≠ INITIAL_PLAYER_POS ∧ p ≠ k ∧ p ≠ EXIT_POS) := by
  obtain ⟨hm1, -⟩ := gen_grid_key_inv wallPos keyOrder m1 k hgen
  subst hm1
  have hgdef : place_obstacles_stage (placeCells baseMap wallPos Cell.wall) k obsPos
      clear_count = g := by
    unfold generate_map_det at hg
    rw [hgen] at hg
    simp only [Option.some.injEq, Prod.mk.injEq] at hg
    exact hg.1
  constructor
  · rw [← hgdef]
    unfold place_obstacles_stage
    by_cases hpos : 0 < min clear_count 40
    · rw [if_pos ⟨hpos, le_trans (min_le_right _ _)
        (obstacle_pool_large wallPos k hw hwl)⟩]
      rw [← hobsl, count_obstacles]
      have hiff := obstacle_iff_sampled wallPos obsPos k hw hobs
      have hperm : (all_coords.filter fun p =>
          decide (cellAt (placeCells (placeCells baseMap wallPos Cell.wall) obsPos
            Cell.obstacle) p.1 p.2 = some Cell.obstacle)).Perm obsPos := by
        apply List.perm_of_nodup_nodup_toFinset_eq
          (List.Nodup.filter _ all_coords_nodup) hobsn
        apply List.toFinset.ext
        intro q
        simp only [List.mem_toFinset, List.mem_filter, decide_eq_true_eq]
        constructor
        · rintro ⟨hq1, hq2⟩
          exact (hiff q hq1).1 hq2
        · intro hq
          have hqa : q ∈ all_coords :=
            interior_subset_all_coords q ((List.mem_filter.1 (hobs q hq)).1)
          exact ⟨hqa, (hiff q hqa).2 hq⟩
      exact hperm.length_eq
    · have hz : min clear_count 40 = 0 := by omega
      rw [if_neg (by rw [hz]; simp)]
      rw [hz, count_obstacles]
      rw [List.length_eq_zero, List.filter_eq_nil_iff]
      intro p hp
      rw [decide_eq_true_eq]
      exact m1_no_obstacle wallPos hw p hp
  · intro p hp
    have := (mem_possible_obstacle_positions (placeCells baseMap wallPos Cell.wall) k p).1
      (hobs p hp)
    refine ⟨this.2.1, ?_, ?_, ?_⟩ <;> intro hcontra <;>
      exact this.2.2 (by simp [hcontra])

/-- A concrete 30-wall sample: the 16 interior cells of row y = 2 and the
14 cells x = 1..14 of row y = 4. -/
def walls30 : List Pos := fenceWalls ++ ((pyRange 1 15).map fun x => (x, 4))

/-- Witness for C6: a concrete attempt with the 30-wall sample, key (2,1),
one sampled obstacle cell (1,3) and clear count 1. -/
theorem generate_map_obstacle_count_witness :
    count_obstacles (placeCells (placeCells baseMap walls30 Cell.wall)
      [((1 : Int), (3 : Int))] Cell.obstacle) = min 1 40 ∧
    (∀ p ∈ [((1 : Int), (3 : Int))],
      cellAt (placeCells baseMap walls30 Cell.wall) p.1 p.2 = some Cell.floor ∧
      p ≠ INITIAL_PLAYER_POS ∧ p ≠ ((2 : Int), (1 : Int)) ∧ p ≠ EXIT_POS) :=
  generate_map_obstacle_count walls30 [(2, 1)] [(1, 3)] 1
    (placeCells baseMap walls30 Cell.wall)
    (placeCells (placeCells baseMap walls30 Cell.wall) [(1, 3)] Cell.obstacle) (2, 1)
    (by decide) (by decide) (by decide) (by decide) (by decide) (by decide) (by decide)

end AkaOni
